import Mathlib

/-!
Shallow embedding of the Cart & Pricing State Engine of the
`frontend-challenge` repository (src/context/CartContext.tsx and the
pricing helpers of src/components/PricingCalculator.tsx), together with
theorems settling the specification claims about it.

JavaScript numbers are modelled as rationals (`ℚ`); the claims under
study are order-theoretic and algebraic, so exact arithmetic is the
intended reading.  Optional JS values (`undefined`) are modelled with
`Option`.  Fields that exist in the TypeScript records but are never
read by the engine (display name, sku, image, …) are omitted.
-/

/-- A price break `{minQty, price, discount?}` from the product data. -/
structure PriceBreak where
  minQty : ℚ
  price : ℚ
  discount : Option ℚ := none
deriving DecidableEq

/-- A catalog product, restricted to the fields the cart engine reads. -/
structure Product where
  id : ℚ
  basePrice : ℚ
  stock : Option ℚ := none
  minQuantity : Option ℚ := none
  maxQuantity : Option ℚ := none
  priceBreaks : Option (List PriceBreak) := none
deriving DecidableEq

/-- An in-memory cart line (`CartItem`), restricted to the fields the
engine reads: the product snapshot plus quantity, selected variant and
computed prices. -/
structure CartItem where
  id : ℚ
  basePrice : ℚ
  stock : Option ℚ := none
  minQuantity : Option ℚ := none
  maxQuantity : Option ℚ := none
  priceBreaks : Option (List PriceBreak) := none
  quantity : ℚ
  selectedColor : Option String := none
  selectedSize : Option String := none
  unitPrice : ℚ
  totalPrice : ℚ
deriving DecidableEq

namespace CartContext

/-- `HARD_MAX` from CartContext.tsx. -/
def HARD_MAX : ℚ := 10000

/-- `STORAGE_VERSION` from CartContext.tsx. -/
def STORAGE_VERSION : ℤ := 1

/-- `clampQty(q, stock, min) = Math.max(min, Math.min(q, stock ?? HARD_MAX))`. -/
def clampQty (q : ℚ) (stock : Option ℚ) (minq : ℚ) : ℚ :=
  max minq (min q (stock.getD HARD_MAX))

/-- Decimal rendering of a JS number used by the template literal in
`variantKey`.  The ids of this application are integers, which print as
in JS; the second branch is a stand-in for JS fractional rendering and
is exercised by no claim. -/
def numStr (q : ℚ) : String :=
  if q.den = 1 then q.num.repr else q.num.repr ++ "." ++ q.den.repr

/-- `variantKey(id, color, size)` computes the template literal
`id ++ "|" ++ (color ?? "") ++ "|" ++ (size ?? "")`. -/
def variantKey (id : ℚ) (color size : Option String) : String :=
  numStr id ++ "|" ++ color.getD "" ++ "|" ++ size.getD ""

/-- `bestUnitPrice(qty, basePrice, breaks)` from CartContext.tsx: starts
the running minimum at `basePrice` and folds every eligible break into
it. -/
def bestUnitPrice (qty basePrice : ℚ) (breaks : Option (List PriceBreak)) : ℚ :=
  match breaks with
  | none => basePrice
  | some bs =>
    if bs.length = 0 then basePrice
    else bs.foldl (fun m b => if b.minQty ≤ qty then min m b.price else m) basePrice

end CartContext

namespace PricingCalculator

/-- `bestUnitPrice(qty, basePrice, breaks)` from PricingCalculator.tsx:
filters the eligible breaks and reduces them with `Math.min` seeded at
`Infinity`.  On the (guarded) non-empty list this reduce equals the fold
of `min` started from the first eligible price. -/
def bestUnitPrice (qty basePrice : ℚ) (breaks : Option (List PriceBreak)) : ℚ :=
  match breaks with
  | none => basePrice
  | some bs =>
    if bs.length = 0 then basePrice
    else
      match bs.filter (fun b => decide (b.minQty ≤ qty)) with
      | [] => basePrice
      | b :: rest => rest.foldl (fun m x => min m x.price) b.price

end PricingCalculator

namespace CartContext

/-- A JavaScript value as far as the loader's `typeof` tests can tell:
a number, a string, `undefined` (also: an absent field), or anything
else (null, boolean, object, array). -/
inductive JVal
  | num (q : ℚ)
  | str (s : String)
  | undef
  | other
deriving DecidableEq

/-- `typeof v === "number"`. -/
def JVal.isNum : JVal → Bool
  | .num _ => true
  | _ => false

/-- The numeric payload of a `JVal`; only read after `isNum` held. -/
def JVal.toQ : JVal → ℚ
  | .num q => q
  | _ => 0

/-- A raw persisted record as found in storage.  The five fields the
loader inspects carry arbitrary JS values; the remaining fields are
pass-through (never validated nor read at load time) and are typed as
`save` writes them. -/
structure RawItem where
  id : JVal
  basePrice : JVal
  quantity : JVal
  unitPrice : JVal := .undef
  totalPrice : JVal := .undef
  stock : Option ℚ := none
  minQuantity : Option ℚ := none
  maxQuantity : Option ℚ := none
  priceBreaks : Option (List PriceBreak) := none
  selectedColor : Option String := none
  selectedSize : Option String := none
deriving DecidableEq

/-- An element of a persisted array: either an object (a record) or a
non-object JSON value (null, number, string, boolean, nested array),
which fails the truthiness/field tests of `isValidItem`. -/
inductive RawEntry
  | record (r : RawItem)
  | nonRecord
deriving DecidableEq

/-- The JSON value found under the storage key, as shape-discriminated
by `loadInitial`: a bare array (legacy), an object with an `items` array
(the versioned envelope; the version field is carried but never read),
or any other JSON value. -/
inductive Payload
  | arr (items : List RawEntry)
  | envelope (v : JVal) (items : List RawEntry)
  | other
deriving DecidableEq

/-- The raw stored string: absent key, text that fails `JSON.parse`
(the `catch` path), or a successfully parsed payload. -/
inductive Stored
  | absent
  | invalidJSON
  | parsed (p : Payload)
deriving DecidableEq

/-- `isValidItem(x)`: `x` is truthy and has numeric `id`, `basePrice`,
`quantity`, and a `unitPrice` that is numeric or `undefined`. -/
def isValidItem (r : RawItem) : Bool :=
  r.id.isNum && r.basePrice.isNum && r.quantity.isNum
    && (r.unitPrice.isNum || r.unitPrice == .undef)

/-- The per-record fixup `loadInitial` applies to a retained record:
spread the record, keep a numeric stored `unitPrice`/`totalPrice`
verbatim and recompute an absent one (`totalPrice` from the same
unit-price expression times the stored quantity). -/
def sanitizeItem (r : RawItem) : CartItem :=
  let unit : ℚ :=
    match r.unitPrice with
    | .num u => u
    | _ => bestUnitPrice r.quantity.toQ r.basePrice.toQ r.priceBreaks
  { id := r.id.toQ
    basePrice := r.basePrice.toQ
    stock := r.stock
    minQuantity := r.minQuantity
    maxQuantity := r.maxQuantity
    priceBreaks := r.priceBreaks
    quantity := r.quantity.toQ
    selectedColor := r.selectedColor
    selectedSize := r.selectedSize
    unitPrice := unit
    totalPrice :=
      match r.totalPrice with
      | .num t => t
      | _ => unit * r.quantity.toQ }

/-- `loadInitial()`: empty on an absent key or a parse failure; accepts
a bare array or an object with an `items` array (else `[]`); then the
source's `filter(isValidItem).map(fixup)`, written as one `filterMap`. -/
def loadInitial (s : Stored) : List CartItem :=
  match s with
  | .absent => []
  | .invalidJSON => []
  | .parsed p =>
    let items : List RawEntry :=
      match p with
      | .arr l => l
      | .envelope _ l => l
      | .other => []
    items.filterMap (fun e =>
      match e with
      | .record r => if isValidItem r then some (sanitizeItem r) else none
      | .nonRecord => none)

/-- The persisted envelope `{ v, items }` built by the debounced save
effect. -/
structure Envelope where
  v : ℤ
  items : List CartItem
deriving DecidableEq

/-- The save effect's payload: `{ v: STORAGE_VERSION, items }`. -/
def save (items : List CartItem) : Envelope :=
  { v := STORAGE_VERSION, items := items }

/-- `JSON.stringify` of an in-memory cart line: every engine field of a
`CartItem` is a number or is kept as stored (an `undefined` optional
field is omitted by `JSON.stringify` and reads back as absent). -/
def itemToRaw (it : CartItem) : RawEntry :=
  .record
    { id := .num it.id
      basePrice := .num it.basePrice
      quantity := .num it.quantity
      unitPrice := .num it.unitPrice
      totalPrice := .num it.totalPrice
      stock := it.stock
      minQuantity := it.minQuantity
      maxQuantity := it.maxQuantity
      priceBreaks := it.priceBreaks
      selectedColor := it.selectedColor
      selectedSize := it.selectedSize }

/-- The stored value an envelope round-trips to through
`JSON.stringify`/`JSON.parse`. -/
def storedOfEnvelope (e : Envelope) : Stored :=
  .parsed (.envelope (.num (e.v : ℚ)) (e.items.map itemToRaw))

/-- Options of `add`: variant selection plus an optional forced unit
price. -/
structure AddOptions where
  color : Option String := none
  size : Option String := none
  overrideUnitPrice : Option ℚ := none

/-- Options of `update`/`remove`: the variant selection to match. -/
structure MatchOptions where
  color : Option String := none
  size : Option String := none

/-- The line-matching test used by `add`/`update`/`remove`:
`variantKey(it.id, it.selectedColor, it.selectedSize) === key`. -/
def matchesKey (key : String) (it : CartItem) : Bool :=
  variantKey it.id it.selectedColor it.selectedSize == key

/-- `findIndex` + in-place replacement, or append when no line matches:
the first line matching `key` is replaced by `upd` of itself; if none
matches, `newIt` is appended at the end. -/
def addToList (key : String) (upd : CartItem → CartItem) (newIt : CartItem) :
    List CartItem → List CartItem
  | [] => [newIt]
  | it :: rest =>
    if matchesKey key it then upd it :: rest
    else it :: addToList key upd newIt rest

/-- `add(product, quantity, options)` from CartContext.tsx. -/
def add (product : Product) (quantity : ℚ) (options : AddOptions)
    (prev : List CartItem) : List CartItem :=
  let minQ := max 1 (product.minQuantity.getD 1)
  let q0 := clampQty quantity product.stock minQ
  if q0 ≤ 0 then prev
  else
    let key := variantKey product.id options.color options.size
    addToList key
      (fun current =>
        let nextQty := clampQty (current.quantity + q0) product.stock 1
        let unit := options.overrideUnitPrice.getD
          (bestUnitPrice nextQty product.basePrice product.priceBreaks)
        { current with quantity := nextQty, unitPrice := unit,
                       totalPrice := unit * nextQty })
      (let unit := options.overrideUnitPrice.getD
          (bestUnitPrice q0 product.basePrice product.priceBreaks)
       { id := product.id
         basePrice := product.basePrice
         stock := product.stock
         minQuantity := product.minQuantity
         maxQuantity := product.maxQuantity
         priceBreaks := product.priceBreaks
         quantity := q0
         selectedColor := options.color
         selectedSize := options.size
         unitPrice := unit
         totalPrice := unit * q0 })
      prev

/-- The quantity clamp of `update`: `it.stock && it.stock > 0` bounds by
the stock, otherwise only `Math.max(0, quantity)` applies. -/
def updateClamp (quantity : ℚ) (stock : Option ℚ) : ℚ :=
  match stock with
  | some s => if 0 < s then max 0 (min quantity s) else max 0 quantity
  | none => max 0 quantity

/-- `update(productId, quantity, options)` from CartContext.tsx: every
matching line gets the absolute clamped quantity and a recomputed price;
a clamped result `≤ 0` drops the line.  The push loop is a `filterMap`. -/
def update (productId : ℚ) (quantity : ℚ) (options : MatchOptions)
    (prev : List CartItem) : List CartItem :=
  let key := variantKey productId options.color options.size
  prev.filterMap (fun it =>
    if matchesKey key it then
      let clamped := updateClamp quantity it.stock
      if clamped ≤ 0 then none
      else
        let unit := bestUnitPrice clamped it.basePrice it.priceBreaks
        some { it with quantity := clamped, unitPrice := unit,
                       totalPrice := unit * clamped }
    else some it)

/-- `remove(productId, options)` from CartContext.tsx. -/
def remove (productId : ℚ) (options : MatchOptions)
    (prev : List CartItem) : List CartItem :=
  prev.filter (fun it => !(matchesKey (variantKey productId options.color options.size) it))

/-- `clear()` from CartContext.tsx. -/
def clear (_prev : List CartItem) : List CartItem := []

/-- Derived `count`: `items.reduce((sum, it) => sum + it.quantity, 0)`. -/
def count (items : List CartItem) : ℚ :=
  items.foldl (fun sum it => sum + it.quantity) 0

/-- Derived `subtotal`: `items.reduce((sum, it) => sum + it.totalPrice, 0)`. -/
def subtotal (items : List CartItem) : ℚ :=
  items.foldl (fun sum it => sum + it.totalPrice) 0

/-- A store command, for talking about reachable states. -/
inductive Op
  | add (product : Product) (quantity : ℚ) (options : AddOptions)
  | update (productId : ℚ) (quantity : ℚ) (options : MatchOptions)
  | remove (productId : ℚ) (options : MatchOptions)
  | clear

/-- Apply one store command. -/
def applyOp (o : Op) (items : List CartItem) : List CartItem :=
  match o with
  | .add p q opts => add p q opts items
  | .update pid q opts => update pid q opts items
  | .remove pid opts => remove pid opts items
  | .clear => clear items

/-- Run a command sequence from an initial state. -/
def run (ops : List Op) (init : List CartItem) : List CartItem :=
  ops.foldl (fun s o => applyOp o s) init

/-- The specification's sum `Σ (unitPrice × quantity)` over all lines. -/
def sumUnitTimesQty (items : List CartItem) : ℚ :=
  (items.map (fun it => it.unitPrice * it.quantity)).sum

/-- The sum `Σ totalPrice` over all lines. -/
def sumTotalPrice (items : List CartItem) : ℚ :=
  (items.map (fun it => it.totalPrice)).sum

/-- The numeric value of a decimal digit character. -/
def digitVal (c : Char) : ℕ := c.toNat - 48

/-- Read a digit string back as a number; inverse of `Nat.toDigits 10`
on its image, used to show decimal rendering is injective. -/
def parseDigits (l : List Char) : ℕ :=
  l.foldl (fun a c => 10 * a + digitVal c) 0

end CartContext

namespace CartContext

theorem foldl_best_le_seed (qty : ℚ) (bs : List PriceBreak) (a : ℚ) :
    bs.foldl (fun m b => if b.minQty ≤ qty then min m b.price else m) a ≤ a := by
  induction bs generalizing a with
  | nil => exact le_refl a
  | cons b t ih =>
    simp only [List.foldl_cons]
    split
    · exact le_trans (ih _) (min_le_left _ _)
    · exact ih a

theorem foldl_best_le_elig (qty : ℚ) (bs : List PriceBreak) (a : ℚ) :
    ∀ br ∈ bs, br.minQty ≤ qty →
      bs.foldl (fun m b => if b.minQty ≤ qty then min m b.price else m) a ≤ br.price := by
  induction bs generalizing a with
  | nil => intro br h; exact absurd h (List.not_mem_nil br)
  | cons b t ih =>
    intro br hmem helig
    rcases List.mem_cons.mp hmem with h | hmem
    · subst h
      simp only [List.foldl_cons, if_pos helig]
      exact le_trans (foldl_best_le_seed qty t _) (min_le_right _ _)
    · simp only [List.foldl_cons]
      split
      · exact ih _ br hmem helig
      · exact ih _ br hmem helig

theorem foldl_best_eq_or (qty : ℚ) (bs : List PriceBreak) (a : ℚ) :
    bs.foldl (fun m b => if b.minQty ≤ qty then min m b.price else m) a = a
      ∨ ∃ br ∈ bs, br.minQty ≤ qty ∧
          bs.foldl (fun m b => if b.minQty ≤ qty then min m b.price else m) a = br.price := by
  induction bs generalizing a with
  | nil => exact Or.inl rfl
  | cons b t ih =>
    simp only [List.foldl_cons]
    by_cases h : b.minQty ≤ qty
    · rw [if_pos h]
      rcases ih (min a b.price) with heq | ⟨br, hm, he, hv⟩
      · rcases min_cases a b.price with ⟨hmin, _⟩ | ⟨hmin, _⟩
        · exact Or.inl (by rw [heq, hmin])
        · exact Or.inr ⟨b, List.mem_cons_self b t, h, by rw [heq, hmin]⟩
      · exact Or.inr ⟨br, List.mem_cons_of_mem b hm, he, hv⟩
    · rw [if_neg h]
      rcases ih a with heq | ⟨br, hm, he, hv⟩
      · exact Or.inl heq
      · exact Or.inr ⟨br, List.mem_cons_of_mem b hm, he, hv⟩

theorem foldl_best_no_elig (qty : ℚ) (bs : List PriceBreak) (a : ℚ)
    (h : ∀ br ∈ bs, ¬ br.minQty ≤ qty) :
    bs.foldl (fun m b => if b.minQty ≤ qty then min m b.price else m) a = a := by
  induction bs generalizing a with
  | nil => rfl
  | cons b t ih =>
    simp only [List.foldl_cons, if_neg (h b (List.mem_cons_self b t))]
    exact ih _ (fun br hm => h br (List.mem_cons_of_mem b hm))

theorem foldl_best_filter (qty : ℚ) (bs : List PriceBreak) (a : ℚ) :
    bs.foldl (fun m b => if b.minQty ≤ qty then min m b.price else m) a
      = (bs.filter (fun b => decide (b.minQty ≤ qty))).foldl (fun m x => min m x.price) a := by
  induction bs generalizing a with
  | nil => rfl
  | cons b t ih =>
    by_cases h : b.minQty ≤ qty <;> simp [List.filter_cons, h, ih]

theorem foldl_min_pull (t : List PriceBreak) (a b : ℚ) :
    t.foldl (fun m x => min m x.price) (min b a)
      = min b (t.foldl (fun m x => min m x.price) a) := by
  induction t generalizing a with
  | nil => rfl
  | cons x xs ih =>
    simp only [List.foldl_cons]
    rw [min_assoc, ih]

end CartContext

/-- Claim C1, counterexample: with `basePrice = 100` and the single
eligible break `{minQty: 1, price: 200}` at quantity 1, the claim
prescribes the minimum price among eligible breaks, 200, and prescribes
`basePrice` only when no break is eligible; the code returns the
basePrice 100. -/
theorem bestUnitPrice_keeps_base_cx :
    CartContext.bestUnitPrice 1 100 (some [{ minQty := 1, price := 200 }]) = 100
      ∧ ({ minQty := 1, price := 200 } : PriceBreak).minQty ≤ (1 : ℚ)
      ∧ (100 : ℚ) ≠ 200 :=
  ⟨by decide, by decide, by decide⟩

/-- Claim C1 (amended): `bestUnitPrice` returns the minimum of
`basePrice` and the prices of all eligible breaks — so it is bounded by
`basePrice` and by every eligible price, equals one of them, equals
`basePrice` whenever no break is eligible (also when `breaks` is
absent), and yields 900 on Scenario B. -/
theorem bestUnitPrice_min_of_base_and_eligible (qty basePrice : ℚ) (bs : List PriceBreak) :
    CartContext.bestUnitPrice qty basePrice (some bs) ≤ basePrice
    ∧ (∀ br ∈ bs, br.minQty ≤ qty →
        CartContext.bestUnitPrice qty basePrice (some bs) ≤ br.price)
    ∧ (CartContext.bestUnitPrice qty basePrice (some bs) = basePrice
        ∨ ∃ br ∈ bs, br.minQty ≤ qty ∧
            CartContext.bestUnitPrice qty basePrice (some bs) = br.price)
    ∧ ((∀ br ∈ bs, ¬ br.minQty ≤ qty) →
        CartContext.bestUnitPrice qty basePrice (some bs) = basePrice)
    ∧ CartContext.bestUnitPrice qty basePrice none = basePrice
    ∧ CartContext.bestUnitPrice 12 1000 (some [⟨10, 900, none⟩, ⟨5, 950, none⟩]) = 900 := by
  refine ⟨?_, ?_, ?_, ?_, rfl, by decide⟩
  · simp only [CartContext.bestUnitPrice]
    split
    · exact le_refl _
    · exact CartContext.foldl_best_le_seed qty bs basePrice
  · intro br hm he
    simp only [CartContext.bestUnitPrice]
    split
    · rename_i h0
      rw [List.length_eq_zero.mp h0] at hm
      exact absurd hm (List.not_mem_nil br)
    · exact CartContext.foldl_best_le_elig qty bs basePrice br hm he
  · simp only [CartContext.bestUnitPrice]
    split
    · exact Or.inl rfl
    · exact CartContext.foldl_best_eq_or qty bs basePrice
  · intro h
    simp only [CartContext.bestUnitPrice]
    split
    · rfl
    · exact CartContext.foldl_best_no_elig qty bs basePrice h

/-- Closed instance of the C1 theorem: on Scenario B's break table the
price is bounded by the eligible 950 tier. -/
theorem bestUnitPrice_min_of_base_and_eligible_witness :
    CartContext.bestUnitPrice 12 1000 (some [⟨10, 900, none⟩, ⟨5, 950, none⟩]) ≤ 950 :=
  (bestUnitPrice_min_of_base_and_eligible 12 1000 [⟨10, 900, none⟩, ⟨5, 950, none⟩]).2.1
    ⟨5, 950, none⟩ (by decide) (by decide)

/-- Claim C10, counterexample: the two embedded `bestUnitPrice`
implementations disagree when an eligible break is priced above the
base price: the cart version keeps the base price as a floor, the
product-detail version does not. -/
theorem bestUnitPrice_impls_disagree_cx :
    CartContext.bestUnitPrice 1 100 (some [{ minQty := 1, price := 200 }]) = 100
      ∧ PricingCalculator.bestUnitPrice 1 100 (some [{ minQty := 1, price := 200 }]) = 200
      ∧ (100 : ℚ) ≠ 200 :=
  ⟨by decide, by decide, by decide⟩

/-- Claim C10 (amended): for every input, the cart implementation
equals the minimum of `basePrice` and the product-detail
implementation; the two agree exactly on inputs where the detail-page
value does not exceed `basePrice` (in particular whenever every
eligible break is a true discount). -/
theorem cart_bestUnitPrice_eq_min_base_calc (qty basePrice : ℚ)
    (breaks : Option (List PriceBreak)) :
    CartContext.bestUnitPrice qty basePrice breaks
      = min basePrice (PricingCalculator.bestUnitPrice qty basePrice breaks) := by
  cases breaks with
  | none => simp [CartContext.bestUnitPrice, PricingCalculator.bestUnitPrice]
  | some bs =>
    simp only [CartContext.bestUnitPrice, PricingCalculator.bestUnitPrice]
    by_cases hlen : bs.length = 0
    · simp [hlen]
    · rw [if_neg hlen, if_neg hlen, CartContext.foldl_best_filter]
      cases hfil : bs.filter (fun b => decide (b.minQty ≤ qty)) with
      | nil => exact (min_self basePrice).symm
      | cons b rest => exact CartContext.foldl_min_pull rest b.price basePrice

/-- Claim C7: loading a legacy bare-array payload yields a state
identical to loading the versioned envelope holding the same records,
whatever its version field carries. -/
theorem load_legacy_eq_load_envelope (v : CartContext.JVal)
    (items : List CartContext.RawEntry) :
    CartContext.loadInitial (.parsed (.arr items))
      = CartContext.loadInitial (.parsed (.envelope v items)) := rfl

/-- Claim C2, counterexample: a stored record whose numeric unitPrice
and totalPrice are inconsistent with its quantity and basePrice is
retained verbatim — the claim prescribes recomputation (bestUnitPrice
would give 1000, and unitPrice × quantity would give 1998). -/
theorem load_keeps_inconsistent_prices_cx :
    CartContext.loadInitial (.parsed (.arr
      [.record { id := .num 1, basePrice := .num 1000, quantity := .num 2,
                 unitPrice := .num 999, totalPrice := .num 5 }]))
      = [{ id := 1, basePrice := 1000, quantity := 2, unitPrice := 999,
           totalPrice := 5 }]
    ∧ CartContext.bestUnitPrice 2 1000 none = 1000
    ∧ (999 : ℚ) ≠ 1000
    ∧ (5 : ℚ) ≠ 999 * 2 :=
  ⟨by decide, rfl, by norm_num, by norm_num⟩

/-- Claim C2 (amended): every line retained by `loadInitial` is the
sanitization of some record passing validation, and sanitization
recomputes unitPrice via bestUnitPrice and totalPrice as
unitPrice × quantity exactly when the stored value is not numeric; a
numeric stored unitPrice or totalPrice is kept verbatim even when
inconsistent, so the pricing invariants are guaranteed only for lines
whose stored computed fields were absent. -/
theorem load_recomputes_only_absent_prices :
    (∀ s it, it ∈ CartContext.loadInitial s →
        ∃ r, CartContext.isValidItem r = true ∧ it = CartContext.sanitizeItem r)
    ∧ ∀ r : CartContext.RawItem,
        (CartContext.sanitizeItem r).quantity = r.quantity.toQ
        ∧ (CartContext.sanitizeItem r).basePrice = r.basePrice.toQ
        ∧ (CartContext.sanitizeItem r).priceBreaks = r.priceBreaks
        ∧ (r.unitPrice.isNum = false →
            (CartContext.sanitizeItem r).unitPrice
              = CartContext.bestUnitPrice r.quantity.toQ r.basePrice.toQ r.priceBreaks)
        ∧ (∀ u, r.unitPrice = .num u → (CartContext.sanitizeItem r).unitPrice = u)
        ∧ (r.totalPrice.isNum = false →
            (CartContext.sanitizeItem r).totalPrice
              = (CartContext.sanitizeItem r).unitPrice * (CartContext.sanitizeItem r).quantity)
        ∧ (∀ t, r.totalPrice = .num t → (CartContext.sanitizeItem r).totalPrice = t) := by
  constructor
  · intro s it h
    cases s with
    | absent => exact absurd h (List.not_mem_nil it)
    | invalidJSON => exact absurd h (List.not_mem_nil it)
    | parsed p =>
      rcases List.mem_filterMap.mp h with ⟨e, _, he⟩
      cases e with
      | record r =>
        have he' : (if CartContext.isValidItem r = true
            then some (CartContext.sanitizeItem r) else none) = some it := he
        by_cases hv : CartContext.isValidItem r
        · rw [if_pos hv] at he'
          exact ⟨r, hv, (Option.some_inj.mp he').symm⟩
        · rw [if_neg hv] at he'
          exact absurd he' (Option.noConfusion)
      | nonRecord => exact absurd he (Option.noConfusion)
  · intro r
    refine ⟨rfl, rfl, rfl, ?_, ?_, ?_, ?_⟩
    · intro hu
      cases hr : r.unitPrice
      case num u => simp [hr, CartContext.JVal.isNum] at hu
      all_goals simp [CartContext.sanitizeItem, hr, CartContext.JVal.isNum]
    · intro u hu
      simp [CartContext.sanitizeItem, hu]
    · intro ht
      cases hr : r.totalPrice <;>
        cases hu : r.unitPrice <;>
        simp [CartContext.sanitizeItem, hr, hu] <;>
        simp [hr, CartContext.JVal.isNum] at ht
    · intro t ht
      cases hu : r.unitPrice <;> simp [CartContext.sanitizeItem, ht, hu]

/-- Closed instance of the C2 theorem: a record stored without a
unitPrice gets it recomputed from the price engine. -/
theorem load_recomputes_only_absent_prices_witness :
    (CartContext.sanitizeItem
        { id := .num 1, basePrice := .num 1000, quantity := .num 2 }).unitPrice
      = CartContext.bestUnitPrice 2 1000 none :=
  (load_recomputes_only_absent_prices.2
    { id := .num 1, basePrice := .num 1000, quantity := .num 2 }).2.2.2.1 (by decide)

namespace CartContext

theorem load_step_itemToRaw (it : CartItem) :
    (match itemToRaw it with
      | RawEntry.record r =>
        if isValidItem r then some (sanitizeItem r) else none
      | RawEntry.nonRecord => none) = some it := rfl

theorem loadInitial_roundtrip (items : List CartItem) :
    loadInitial (storedOfEnvelope (save items)) = items := by
  show (items.map itemToRaw).filterMap _ = items
  induction items with
  | nil => rfl
  | cons it t ih =>
    simp only [List.map_cons, List.filterMap_cons, load_step_itemToRaw]
    exact congrArg (it :: ·) ih

end CartContext

/-- Claim C8: the save/load round trip is drift-free — for every cart
state, saving, loading the saved envelope back through the validating
path, and saving again produces an envelope with the same items and the
same current version number. -/
theorem save_load_save_roundtrip (items : List CartItem) :
    (CartContext.save (CartContext.loadInitial (CartContext.storedOfEnvelope
        (CartContext.save items)))).items = (CartContext.save items).items
    ∧ (CartContext.save (CartContext.loadInitial (CartContext.storedOfEnvelope
        (CartContext.save items)))).v = CartContext.STORAGE_VERSION :=
  ⟨CartContext.loadInitial_roundtrip items, rfl⟩

namespace CartContext

theorem foldl_add_totalPrice (l : List CartItem) (a : ℚ) :
    l.foldl (fun s it => s + it.totalPrice) a = a + sumTotalPrice l := by
  induction l generalizing a with
  | nil => simp [sumTotalPrice]
  | cons it t ih => simp [sumTotalPrice, ih, add_assoc]

theorem subtotal_eq_sumTotalPrice (l : List CartItem) :
    subtotal l = sumTotalPrice l := by
  simpa using foldl_add_totalPrice l 0

theorem mem_addToList (key : String) (upd : CartItem → CartItem) (newIt : CartItem)
    (l : List CartItem) :
    ∀ it' ∈ addToList key upd newIt l,
      it' ∈ l ∨ (∃ it ∈ l, it' = upd it) ∨ it' = newIt := by
  induction l with
  | nil =>
    intro it' h
    rcases List.mem_singleton.mp h with rfl
    exact Or.inr (Or.inr rfl)
  | cons it t ih =>
    intro it' h
    simp only [addToList] at h
    split at h
    · rcases List.mem_cons.mp h with rfl | h
      · exact Or.inr (Or.inl ⟨it, List.mem_cons_self it t, rfl⟩)
      · exact Or.inl (List.mem_cons_of_mem it h)
    · rcases List.mem_cons.mp h with rfl | h
      · exact Or.inl (List.mem_cons_self _ _)
      · rcases ih it' h with h1 | ⟨x, hx, he⟩ | he
        · exact Or.inl (List.mem_cons_of_mem it h1)
        · exact Or.inr (Or.inl ⟨x, List.mem_cons_of_mem it hx, he⟩)
        · exact Or.inr (Or.inr he)

theorem add_preserves_priced (p : Product) (q : ℚ) (opts : AddOptions)
    (prev : List CartItem)
    (h : ∀ it ∈ prev, it.totalPrice = it.unitPrice * it.quantity) :
    ∀ it' ∈ add p q opts prev, it'.totalPrice = it'.unitPrice * it'.quantity := by
  intro it' hmem
  simp only [add] at hmem
  split at hmem
  · exact h it' hmem
  · rcases mem_addToList _ _ _ prev it' hmem with h1 | ⟨it, _, he⟩ | he
    · exact h it' h1
    · rw [he]
    · rw [he]

theorem update_preserves_priced (pid : ℚ) (q : ℚ) (opts : MatchOptions)
    (prev : List CartItem)
    (h : ∀ it ∈ prev, it.totalPrice = it.unitPrice * it.quantity) :
    ∀ it' ∈ update pid q opts prev, it'.totalPrice = it'.unitPrice * it'.quantity := by
  intro it' hmem
  rcases List.mem_filterMap.mp hmem with ⟨it, hit, he⟩
  by_cases hm : matchesKey (variantKey pid opts.color opts.size) it
  · rw [if_pos hm] at he
    by_cases hc : updateClamp q it.stock ≤ 0
    · rw [if_pos hc] at he
      exact absurd he Option.noConfusion
    · rw [if_neg hc] at he
      rw [← Option.some_inj.mp he]
  · rw [if_neg hm] at he
    rw [← Option.some_inj.mp he]
    exact h it hit

theorem applyOp_preserves_priced (o : Op) (l : List CartItem)
    (h : ∀ it ∈ l, it.totalPrice = it.unitPrice * it.quantity) :
    ∀ it' ∈ applyOp o l, it'.totalPrice = it'.unitPrice * it'.quantity := by
  cases o with
  | add p q opts => exact add_preserves_priced p q opts l h
  | update pid q opts => exact update_preserves_priced pid q opts l h
  | remove pid opts =>
    intro it' hmem
    exact h it' (List.mem_of_mem_filter hmem)
  | clear => intro it' hmem; exact absurd hmem (List.not_mem_nil it')

theorem run_preserves_priced (ops : List Op) (init : List CartItem)
    (h : ∀ it ∈ init, it.totalPrice = it.unitPrice * it.quantity) :
    ∀ it' ∈ run ops init, it'.totalPrice = it'.unitPrice * it'.quantity := by
  induction ops generalizing init with
  | nil => exact h
  | cons o t ih => exact ih (applyOp o init) (applyOp_preserves_priced o init h)

end CartContext

/-- Claim C3, counterexample: the state loaded from the stored record
`{id:1, basePrice:1000, quantity:2, unitPrice:1000, totalPrice:5}`
followed by the empty operation sequence is reachable, yet its subtotal
(the sum of stored totalPrice values, 5) differs from
Σ unitPrice × quantity = 2000. -/
theorem subtotal_neq_unit_times_qty_cx :
    CartContext.subtotal (CartContext.run [] (CartContext.loadInitial (.parsed (.arr
      [.record { id := .num 1, basePrice := .num 1000, quantity := .num 2,
                 unitPrice := .num 1000, totalPrice := .num 5 }])))) = 5
    ∧ CartContext.sumUnitTimesQty (CartContext.run [] (CartContext.loadInitial (.parsed (.arr
      [.record { id := .num 1, basePrice := .num 1000, quantity := .num 2,
                 unitPrice := .num 1000, totalPrice := .num 5 }])))) = 2000
    ∧ (5 : ℚ) ≠ 2000 := by
  refine ⟨?_, ?_, by norm_num⟩
  · show CartContext.subtotal [({ id := 1, basePrice := 1000, quantity := 2, unitPrice := 1000, totalPrice := 5 } : CartItem)] = 5
    norm_num [CartContext.subtotal]
  · show CartContext.sumUnitTimesQty [({ id := 1, basePrice := 1000, quantity := 2, unitPrice := 1000, totalPrice := 5 } : CartItem)] = 2000
    norm_num [CartContext.sumUnitTimesQty]

/-- Claim C3 (amended): in every reachable state the subtotal equals
Σ totalPrice over all lines; it moreover equals
Σ unitPrice × quantity whenever every loaded line already satisfied
`totalPrice = unitPrice × quantity` (which the operations preserve, and
which holds in particular for every state reached from an empty or
absent store, or one whose records carried no stored totalPrice). -/
theorem reachable_subtotal_eq_sum (st : CartContext.Stored) (ops : List CartContext.Op) :
    CartContext.subtotal (CartContext.run ops (CartContext.loadInitial st))
      = CartContext.sumTotalPrice (CartContext.run ops (CartContext.loadInitial st))
    ∧ ((∀ it ∈ CartContext.loadInitial st, it.totalPrice = it.unitPrice * it.quantity) →
        CartContext.subtotal (CartContext.run ops (CartContext.loadInitial st))
          = CartContext.sumUnitTimesQty (CartContext.run ops (CartContext.loadInitial st))) := by
  refine ⟨CartContext.subtotal_eq_sumTotalPrice _, ?_⟩
  intro h
  rw [CartContext.subtotal_eq_sumTotalPrice]
  unfold CartContext.sumTotalPrice CartContext.sumUnitTimesQty
  exact congrArg List.sum (List.map_congr_left
    (CartContext.run_preserves_priced ops (CartContext.loadInitial st) h))

/-- Closed instance of the C3 theorem at the empty store. -/
theorem reachable_subtotal_eq_sum_witness :
    CartContext.subtotal (CartContext.run [] (CartContext.loadInitial .absent))
      = CartContext.sumUnitTimesQty (CartContext.run [] (CartContext.loadInitial .absent)) :=
  (reachable_subtotal_eq_sum .absent []).2
    (by intro it h; exact absurd h (List.not_mem_nil it))

namespace CartContext

theorem clampQty_lower (q : ℚ) (stock : Option ℚ) (minq : ℚ) :
    minq ≤ clampQty q stock minq :=
  le_max_left _ _

theorem clampQty_upper (q : ℚ) (stock : Option ℚ) (minq : ℚ) :
    clampQty q stock minq ≤ max minq (stock.getD HARD_MAX) :=
  max_le_max (le_refl minq) (min_le_right _ _)

theorem updateClamp_le_stock (q s : ℚ) (hs : 0 < s) :
    updateClamp q (some s) ≤ s := by
  simp only [updateClamp, if_pos hs]
  exact max_le (le_of_lt hs) (min_le_right _ _)

theorem updateClamp_nonpos (q : ℚ) (stock : Option ℚ) (hq : q ≤ 0) :
    updateClamp q stock ≤ 0 := by
  cases stock with
  | none => exact max_le (le_refl 0) hq
  | some s =>
    simp only [updateClamp]
    split
    · exact max_le (le_refl 0) (le_trans (min_le_left _ _) hq)
    · exact max_le (le_refl 0) hq

theorem update_nonpos_eq_remove (pid : ℚ) (q : ℚ) (opts : MatchOptions)
    (prev : List CartItem) (hq : q ≤ 0) :
    update pid q opts prev = remove pid opts prev := by
  induction prev with
  | nil => rfl
  | cons it t ih =>
    simp only [update, remove, List.filterMap_cons, List.filter_cons] at ih ⊢
    by_cases hm : matchesKey (variantKey pid opts.color opts.size) it
    · simp only [hm, if_true, ite_true, Bool.not_true, ite_false,
        if_pos (updateClamp_nonpos q it.stock hq)]
      exact ih
    · simp only [hm, if_false, ite_false, Bool.not_false, ite_true]
      exact congrArg (it :: ·) ih

end CartContext

/-- Claim C4, counterexample: for a product with `minQuantity = 5` and
`stock = 3`, `add` with requested quantity 1 creates a line with
quantity 5 — `clampQty` applies the minimum after the stock cap — so
the resulting quantity exceeds `effectiveMax = min(stock, 10000) = 3`
and lies outside the claimed interval. -/
theorem add_exceeds_stock_cx :
    (CartContext.add
        { id := 1, basePrice := 1000, stock := some 3, minQuantity := some 5 }
        1 {} []).map (fun it => it.quantity) = [5]
    ∧ ¬((5 : ℚ) ≤ min 3 CartContext.HARD_MAX) := by
  refine ⟨by decide, ?_⟩
  rw [show min 3 CartContext.HARD_MAX = 3 by decide]
  norm_num

namespace CartContext

theorem addToList_split (key : String) (upd : CartItem → CartItem) (newIt : CartItem)
    (l1 l2 : List CartItem) (it : CartItem)
    (h1 : ∀ x ∈ l1, matchesKey key x = false) (hit : matchesKey key it = true) :
    addToList key upd newIt (l1 ++ it :: l2) = l1 ++ upd it :: l2 := by
  induction l1 with
  | nil => simp [addToList, hit]
  | cons a t ih =>
    simp only [List.cons_append, addToList, h1 a (List.mem_cons_self a t),
      Bool.false_eq_true, if_false, ite_false]
    exact congrArg (a :: ·) (ih (fun x hx => h1 x (List.mem_cons_of_mem a hx)))

theorem countP_eq_zero_of_all_false (key : String) (l : List CartItem)
    (h : ∀ x ∈ l, matchesKey key x = false) :
    l.countP (fun x => matchesKey key x) = 0 := by
  induction l with
  | nil => rfl
  | cons a t ih =>
    rw [List.countP_cons_of_neg]
    · exact ih (fun x hx => h x (List.mem_cons_of_mem a hx))
    · simp [h a (List.mem_cons_self a t)]

theorem addToList_no_match (key : String) (upd : CartItem → CartItem) (newIt : CartItem)
    (l : List CartItem) (h : ∀ x ∈ l, matchesKey key x = false) :
    addToList key upd newIt l = l ++ [newIt] := by
  induction l with
  | nil => rfl
  | cons a t ih =>
    simp only [List.cons_append, addToList, h a (List.mem_cons_self a t),
      Bool.false_eq_true, if_false, ite_false]
    exact congrArg (a :: ·) (ih (fun x hx => h x (List.mem_cons_of_mem a hx)))

end CartContext

/-- Claim C4 (amended), by case: when no cart line matches the incoming
key, `add` appends a new line whose quantity is exactly
`clampQty(q, stock, max(1, minQuantity))`, which lies in
`[max(1, minQuantity), max(max(1, minQuantity), stock ?? 10000)]` — the
minimum is applied after the stock cap and an absent stock falls back
to the hard ceiling instead of being combined with it; when the first
matching line exists, `add` replaces it in place by a merged line whose
quantity is exactly `clampQty(existing + clamped incoming, stock, 1)`,
lying in `[1, max(1, stock ?? 10000)]`; every line of an `update`
result is either an untouched non-matching line of the previous state
or the matching line re-quantified to exactly
`updateClamp(q, stock)` (kept only when positive), where
`updateClamp(q, some s) = max(0, min(q, s)) ≤ s` for positive stock and
`updateClamp` is exactly `max(0, q)` — no upper ceiling — when stock is
absent or not positive; and a requested quantity ≤ 0 removes every
matching line exactly like `remove`. -/
theorem add_update_quantity_bounds_by_case :
    (∀ (p : Product) (q : ℚ) (opts : CartContext.AddOptions) (prev : List CartItem),
      (∀ x ∈ prev, CartContext.matchesKey
          (CartContext.variantKey p.id opts.color opts.size) x = false) →
      ∃ newIt, CartContext.add p q opts prev = prev ++ [newIt]
        ∧ newIt.quantity = CartContext.clampQty q p.stock (max 1 (p.minQuantity.getD 1))
        ∧ max 1 (p.minQuantity.getD 1) ≤ newIt.quantity
        ∧ newIt.quantity ≤ max (max 1 (p.minQuantity.getD 1))
            (p.stock.getD CartContext.HARD_MAX))
    ∧ (∀ (p : Product) (q : ℚ) (opts : CartContext.AddOptions)
          (l1 l2 : List CartItem) (it : CartItem),
        (∀ x ∈ l1, CartContext.matchesKey
            (CartContext.variantKey p.id opts.color opts.size) x = false) →
        CartContext.matchesKey (CartContext.variantKey p.id opts.color opts.size) it = true →
        ∃ merged, CartContext.add p q opts (l1 ++ it :: l2) = l1 ++ merged :: l2
          ∧ merged.quantity = CartContext.clampQty
              (it.quantity + CartContext.clampQty q p.stock (max 1 (p.minQuantity.getD 1)))
              p.stock 1
          ∧ 1 ≤ merged.quantity
          ∧ merged.quantity ≤ max 1 (p.stock.getD CartContext.HARD_MAX))
    ∧ (∀ (pid q : ℚ) (opts : CartContext.MatchOptions) (prev : List CartItem),
        ∀ it' ∈ CartContext.update pid q opts prev,
          ∃ it, it ∈ prev
            ∧ ((CartContext.matchesKey
                  (CartContext.variantKey pid opts.color opts.size) it = false
                ∧ it' = it)
              ∨ (CartContext.matchesKey
                    (CartContext.variantKey pid opts.color opts.size) it = true
                ∧ ¬ CartContext.updateClamp q it.stock ≤ 0
                ∧ it' = { it with
                    quantity := CartContext.updateClamp q it.stock,
                    unitPrice := CartContext.bestUnitPrice
                      (CartContext.updateClamp q it.stock) it.basePrice it.priceBreaks,
                    totalPrice := CartContext.bestUnitPrice
                        (CartContext.updateClamp q it.stock) it.basePrice it.priceBreaks
                      * CartContext.updateClamp q it.stock })))
    ∧ (∀ q s : ℚ,
        (0 < s → CartContext.updateClamp q (some s) = max 0 (min q s)
          ∧ CartContext.updateClamp q (some s) ≤ s)
        ∧ (¬ 0 < s → CartContext.updateClamp q (some s) = max 0 q)
        ∧ CartContext.updateClamp q none = max 0 q)
    ∧ (∀ (pid q : ℚ) (opts : CartContext.MatchOptions) (prev : List CartItem),
        q ≤ 0 → CartContext.update pid q opts prev = CartContext.remove pid opts prev) := by
  refine ⟨?_, ?_, ?_, ?_,
    fun pid q opts prev hq => CartContext.update_nonpos_eq_remove pid q opts prev hq⟩
  · intro p q opts prev h
    have hq0 : ¬ CartContext.clampQty q p.stock (max 1 (p.minQuantity.getD 1)) ≤ 0 := by
      intro hle
      exact absurd (le_trans (le_trans (le_max_left 1 (p.minQuantity.getD 1))
        (CartContext.clampQty_lower q p.stock _)) hle) (by norm_num)
    have hadd : CartContext.add p q opts prev
        = prev ++ [({
            id := p.id,
            basePrice := p.basePrice,
            stock := p.stock,
            minQuantity := p.minQuantity,
            maxQuantity := p.maxQuantity,
            priceBreaks := p.priceBreaks,
            quantity := CartContext.clampQty q p.stock (max 1 (p.minQuantity.getD 1)),
            selectedColor := opts.color,
            selectedSize := opts.size,
            unitPrice := opts.overrideUnitPrice.getD
              (CartContext.bestUnitPrice
                (CartContext.clampQty q p.stock (max 1 (p.minQuantity.getD 1)))
                p.basePrice p.priceBreaks),
            totalPrice := opts.overrideUnitPrice.getD
                (CartContext.bestUnitPrice
                  (CartContext.clampQty q p.stock (max 1 (p.minQuantity.getD 1)))
                  p.basePrice p.priceBreaks)
              * CartContext.clampQty q p.stock (max 1 (p.minQuantity.getD 1)) } : CartItem)] := by
      simp only [CartContext.add, if_neg hq0]
      exact CartContext.addToList_no_match _ _ _ prev h
    exact ⟨_, hadd, rfl, CartContext.clampQty_lower _ _ _, CartContext.clampQty_upper _ _ _⟩
  · intro p q opts l1 l2 it h1 hit
    have hq0 : ¬ CartContext.clampQty q p.stock (max 1 (p.minQuantity.getD 1)) ≤ 0 := by
      intro hle
      exact absurd (le_trans (le_trans (le_max_left 1 (p.minQuantity.getD 1))
        (CartContext.clampQty_lower q p.stock _)) hle) (by norm_num)
    have hadd : CartContext.add p q opts (l1 ++ it :: l2)
        = l1 ++ ({ it with
            quantity := CartContext.clampQty
              (it.quantity + CartContext.clampQty q p.stock (max 1 (p.minQuantity.getD 1)))
              p.stock 1,
            unitPrice := opts.overrideUnitPrice.getD
              (CartContext.bestUnitPrice
                (CartContext.clampQty
                  (it.quantity + CartContext.clampQty q p.stock (max 1 (p.minQuantity.getD 1)))
                  p.stock 1)
                p.basePrice p.priceBreaks),
            totalPrice := opts.overrideUnitPrice.getD
                (CartContext.bestUnitPrice
                  (CartContext.clampQty
                    (it.quantity + CartContext.clampQty q p.stock (max 1 (p.minQuantity.getD 1)))
                    p.stock 1)
                  p.basePrice p.priceBreaks)
              * CartContext.clampQty
                  (it.quantity + CartContext.clampQty q p.stock (max 1 (p.minQuantity.getD 1)))
                  p.stock 1 } : CartItem) :: l2 := by
      simp only [CartContext.add, if_neg hq0]
      exact CartContext.addToList_split _ _ _ l1 l2 it h1 hit
    exact ⟨_, hadd, rfl, CartContext.clampQty_lower _ _ _, CartContext.clampQty_upper _ _ _⟩
  · intro pid q opts prev it' hmem
    rcases List.mem_filterMap.mp hmem with ⟨it, hit, he⟩
    refine ⟨it, hit, ?_⟩
    by_cases hm : CartContext.matchesKey (CartContext.variantKey pid opts.color opts.size) it
    · rw [if_pos hm] at he
      by_cases hc : CartContext.updateClamp q it.stock ≤ 0
      · rw [if_pos hc] at he
        exact absurd he Option.noConfusion
      · rw [if_neg hc] at he
        exact Or.inr ⟨hm, hc, (Option.some_inj.mp he).symm⟩
    · rw [if_neg hm] at he
      exact Or.inl ⟨Bool.eq_false_iff.mpr hm, (Option.some_inj.mp he).symm⟩
  · intro q s
    refine ⟨fun hs => ⟨?_, CartContext.updateClamp_le_stock q s hs⟩, fun hs => ?_, rfl⟩
    · simp only [CartContext.updateClamp, if_pos hs]
    · simp only [CartContext.updateClamp, if_neg hs]

/-- Closed instance of the C4 theorem: adding 4 of a product with
`minQuantity = 2`, `stock = 10` to an empty cart appends one line whose
quantity is exactly the clamp of the request. -/
theorem add_update_quantity_bounds_by_case_witness :
    (CartContext.add { id := 1, basePrice := 1000, stock := some 10, minQuantity := some 2 }
        4 {} []).map (fun it => it.quantity)
      = [CartContext.clampQty 4 (some 10) (max 1 2)] := by
  obtain ⟨newIt, heq, hq, -, -⟩ :=
    add_update_quantity_bounds_by_case.1
      { id := 1, basePrice := 1000, stock := some 10, minQuantity := some 2 } 4 {} []
      (by intro x hx; exact absurd hx (List.not_mem_nil x))
  rw [heq, List.nil_append, List.map_singleton, hq]
  rfl

/-- Claim C6, counterexample: `loadInitial` does not deduplicate
variant keys, so the state loaded from a payload holding the same
record twice has two lines with one key; `add` for that key updates
only the first match, leaving two lines afterwards, not exactly one. -/
theorem add_duplicate_key_cx :
    (CartContext.run
        [CartContext.Op.add { id := 1, basePrice := 1000 } 1 {}]
        (CartContext.loadInitial (.parsed (.arr
          [.record { id := .num 1, basePrice := .num 1000, quantity := .num 1,
                     unitPrice := .num 1000, totalPrice := .num 1000 },
           .record { id := .num 1, basePrice := .num 1000, quantity := .num 1,
                     unitPrice := .num 1000, totalPrice := .num 1000 }])))).countP
        (fun it => CartContext.matchesKey (CartContext.variantKey 1 none none) it) = 2
    ∧ (2 : ℕ) ≠ 1 :=
  ⟨by decide, by decide⟩

/-- Claim C6 (amended): when the cart holds exactly one line with the
incoming VariantKey — as in every state reachable from an empty cart —
`add` merges into that line in place: afterwards there is exactly one
line with that key, its quantity is the existing quantity plus the
clamped incoming quantity, re-clamped, its unitPrice is
`overrideUnitPrice` when given and otherwise the engine price for the
new total, and its totalPrice is the product; Scenario A (adding 5 then
3 of a product with basePrice 1000 and stock 50) yields one line with
quantity 8 priced for quantity 8. -/
theorem add_merges_existing_line :
    (∀ (p : Product) (q : ℚ) (opts : CartContext.AddOptions)
        (l1 l2 : List CartItem) (it : CartItem),
      (∀ x ∈ l1, CartContext.matchesKey
          (CartContext.variantKey p.id opts.color opts.size) x = false) →
      CartContext.matchesKey (CartContext.variantKey p.id opts.color opts.size) it = true →
      (∀ x ∈ l2, CartContext.matchesKey
          (CartContext.variantKey p.id opts.color opts.size) x = false) →
      ∃ merged,
        CartContext.add p q opts (l1 ++ it :: l2) = l1 ++ merged :: l2
        ∧ merged.quantity = CartContext.clampQty
            (it.quantity + CartContext.clampQty q p.stock (max 1 (p.minQuantity.getD 1)))
            p.stock 1
        ∧ merged.unitPrice = opts.overrideUnitPrice.getD
            (CartContext.bestUnitPrice merged.quantity p.basePrice p.priceBreaks)
        ∧ merged.totalPrice = merged.unitPrice * merged.quantity
        ∧ merged.id = it.id
        ∧ merged.selectedColor = it.selectedColor
        ∧ merged.selectedSize = it.selectedSize
        ∧ (CartContext.add p q opts (l1 ++ it :: l2)).countP
            (fun x => CartContext.matchesKey
              (CartContext.variantKey p.id opts.color opts.size) x) = 1)
    ∧ (CartContext.add { id := 1, basePrice := 1000, stock := some 50 } 3 {}
        (CartContext.add { id := 1, basePrice := 1000, stock := some 50 } 5 {} [])).map
        (fun it => it.quantity) = [8]
    ∧ (CartContext.add { id := 1, basePrice := 1000, stock := some 50 } 3 {}
        (CartContext.add { id := 1, basePrice := 1000, stock := some 50 } 5 {} [])).map
        (fun it => it.unitPrice) = [CartContext.bestUnitPrice 8 1000 none] := by
  refine ⟨?_,
    by norm_num [CartContext.add, CartContext.addToList, CartContext.clampQty,
      CartContext.matchesKey, CartContext.HARD_MAX, min_def, max_def],
    by norm_num [CartContext.add, CartContext.addToList, CartContext.clampQty,
      CartContext.matchesKey, CartContext.bestUnitPrice, CartContext.HARD_MAX,
      min_def, max_def]⟩
  intro p q opts l1 l2 it h1 hit h2
  have hq0 : ¬ CartContext.clampQty q p.stock (max 1 (p.minQuantity.getD 1)) ≤ 0 := by
    intro hle
    exact absurd (le_trans (le_trans (le_max_left 1 (p.minQuantity.getD 1))
      (CartContext.clampQty_lower q p.stock _)) hle) (by norm_num)
  have hadd : CartContext.add p q opts (l1 ++ it :: l2)
      = l1 ++ ({ it with
          quantity := CartContext.clampQty
            (it.quantity + CartContext.clampQty q p.stock (max 1 (p.minQuantity.getD 1)))
            p.stock 1,
          unitPrice := opts.overrideUnitPrice.getD
            (CartContext.bestUnitPrice
              (CartContext.clampQty
                (it.quantity + CartContext.clampQty q p.stock (max 1 (p.minQuantity.getD 1)))
                p.stock 1)
              p.basePrice p.priceBreaks),
          totalPrice := opts.overrideUnitPrice.getD
            (CartContext.bestUnitPrice
              (CartContext.clampQty
                (it.quantity + CartContext.clampQty q p.stock (max 1 (p.minQuantity.getD 1)))
                p.stock 1)
              p.basePrice p.priceBreaks)
            * CartContext.clampQty
                (it.quantity + CartContext.clampQty q p.stock (max 1 (p.minQuantity.getD 1)))
                p.stock 1 } : CartItem) :: l2 := by
    simp only [CartContext.add, if_neg hq0]
    exact CartContext.addToList_split _ _ _ l1 l2 it h1 hit
  refine ⟨_, hadd, rfl, rfl, rfl, rfl, rfl, rfl, ?_⟩
  rw [hadd, List.countP_append, List.countP_cons_of_pos, CartContext.countP_eq_zero_of_all_false _ _ h1, CartContext.countP_eq_zero_of_all_false _ _ h2]
  exact hit

/-- Closed instance of the C6 theorem: adding 3 more of an already
carted variant leaves exactly one line with its key. -/
theorem add_merges_existing_line_witness :
    (CartContext.add { id := 1, basePrice := 1000, stock := some 50 } 3 {}
        [{ id := 1, basePrice := 1000, quantity := 5, unitPrice := 1000,
           totalPrice := 5000 }]).countP
      (fun x => CartContext.matchesKey (CartContext.variantKey 1 none none) x) = 1 := by
  obtain ⟨merged, -, -, -, -, -, -, -, hcount⟩ :=
    add_merges_existing_line.1 { id := 1, basePrice := 1000, stock := some 50 } 3 {}
      [] []
      { id := 1, basePrice := 1000, quantity := 5, unitPrice := 1000, totalPrice := 5000 }
      (by intro x hx; exact absurd hx (List.not_mem_nil x))
      (by decide)
      (by intro x hx; exact absurd hx (List.not_mem_nil x))
  exact hcount

namespace CartContext

theorem digitChar_isDigit : ∀ m, m < 10 → (Nat.digitChar m).isDigit = true := by decide

theorem tdc_acc (f : ℕ) : ∀ (n : ℕ) (ds : List Char),
    Nat.toDigitsCore 10 f n ds = Nat.toDigitsCore 10 f n [] ++ ds := by
  induction f with
  | zero => intro n ds; rfl
  | succ f ih =>
    intro n ds
    simp only [Nat.toDigitsCore]
    by_cases h : n / 10 = 0
    · simp [h]
    · rw [if_neg h, if_neg h, ih (n / 10) [Nat.digitChar (n % 10)],
        ih (n / 10) (Nat.digitChar (n % 10) :: ds), List.append_assoc]
      rfl

theorem tdc_shape (f n : ℕ) :
    Nat.toDigitsCore 10 (f + 1) n []
      = (if n / 10 = 0 then [Nat.digitChar (n % 10)]
         else Nat.toDigitsCore 10 f (n / 10) [] ++ [Nat.digitChar (n % 10)]) := by
  simp only [Nat.toDigitsCore]
  by_cases h : n / 10 = 0
  · simp [h]
  · rw [if_neg h, if_neg h, tdc_acc f (n / 10) [Nat.digitChar (n % 10)]]

theorem tdc_isDigit (f : ℕ) : ∀ (n : ℕ) (ds : List Char),
    (∀ c ∈ ds, c.isDigit = true) → ∀ c ∈ Nat.toDigitsCore 10 f n ds, c.isDigit = true := by
  induction f with
  | zero => intro n ds h; exact h
  | succ f ih =>
    intro n ds h c hc
    simp only [Nat.toDigitsCore] at hc
    have hd : ∀ x ∈ Nat.digitChar (n % 10) :: ds, x.isDigit = true := by
      intro x hx
      rcases List.mem_cons.mp hx with rfl | hx
      · exact digitChar_isDigit _ (Nat.mod_lt n (by norm_num))
      · exact h x hx
    by_cases h0 : n / 10 = 0
    · rw [if_pos h0] at hc
      exact hd c hc
    · rw [if_neg h0] at hc
      exact ih (n / 10) _ hd c hc

theorem tdc_ne_nil (f n : ℕ) : Nat.toDigitsCore 10 (f + 1) n [] ≠ [] := by
  rw [tdc_shape]
  split
  · exact List.cons_ne_nil _ _
  · simp

theorem digitVal_digitChar : ∀ m, m < 10 → digitVal (Nat.digitChar m) = m := by decide

theorem parseDigits_append (l : List Char) (c : Char) :
    parseDigits (l ++ [c]) = 10 * parseDigits l + digitVal c := by
  simp [parseDigits, List.foldl_append]

theorem parse_tdc (f : ℕ) : ∀ n, n < f → parseDigits (Nat.toDigitsCore 10 f n []) = n := by
  induction f with
  | zero => intro n h; exact absurd h (Nat.not_lt_zero n)
  | succ f ih =>
    intro n h
    rw [tdc_shape]
    by_cases h0 : n / 10 = 0
    · rw [if_pos h0]
      have hp : parseDigits [Nat.digitChar (n % 10)] = digitVal (Nat.digitChar (n % 10)) := by
        simp [parseDigits, digitVal]
      rw [hp, digitVal_digitChar _ (Nat.mod_lt n (by norm_num))]
      omega
    · rw [if_neg h0, parseDigits_append,
        ih (n / 10) (by omega), digitVal_digitChar _ (Nat.mod_lt n (by norm_num))]
      omega

theorem nat_repr_inj (m n : ℕ) (h : Nat.repr m = Nat.repr n) : m = n := by
  have hd : Nat.toDigits 10 m = Nat.toDigits 10 n := congrArg String.data h
  have hm := parse_tdc (m + 1) m (Nat.lt_succ_self m)
  have hn := parse_tdc (n + 1) n (Nat.lt_succ_self n)
  rw [← hm, ← hn]
  exact congrArg parseDigits hd

theorem nat_repr_all_digits (n : ℕ) : ∀ c ∈ (Nat.repr n).data, c.isDigit = true := by
  intro c hc
  exact tdc_isDigit (n + 1) n [] (by intro x hx; exact absurd hx (List.not_mem_nil x)) c hc

theorem nat_repr_no_pipe (n : ℕ) : '|' ∉ (Nat.repr n).data := by
  intro hc
  have hdig := nat_repr_all_digits n '|' hc
  exact absurd hdig (by decide)

theorem int_repr_data_negSucc (m : ℕ) :
    (Int.repr (Int.negSucc m)).data = '-' :: (Nat.repr (m + 1)).data := by
  show (("-" : String) ++ Nat.repr (Nat.succ m)).data = _
  rw [String.data_append]
  rfl

theorem int_repr_no_pipe (i : ℤ) : '|' ∉ (Int.repr i).data := by
  cases i with
  | ofNat m => exact nat_repr_no_pipe m
  | negSucc m =>
    rw [int_repr_data_negSucc]
    intro hc
    rcases List.mem_cons.mp hc with he | hc
    · exact absurd he (by decide)
    · exact nat_repr_no_pipe (m + 1) hc

theorem int_repr_inj (i j : ℤ) (h : Int.repr i = Int.repr j) : i = j := by
  cases i with
  | ofNat m =>
    cases j with
    | ofNat n => exact congrArg Int.ofNat (nat_repr_inj m n h)
    | negSucc n =>
      exfalso
      have hd : (Nat.repr m).data = '-' :: (Nat.repr (n + 1)).data := by
        rw [← int_repr_data_negSucc]
        exact congrArg String.data h
      have hmem : '-' ∈ (Nat.repr m).data := by rw [hd]; exact List.mem_cons_self _ _
      exact absurd (nat_repr_all_digits m '-' hmem) (by decide)
  | negSucc m =>
    cases j with
    | ofNat n =>
      exfalso
      have hd : (Nat.repr n).data = '-' :: (Nat.repr (m + 1)).data := by
        rw [← int_repr_data_negSucc]
        exact congrArg String.data h.symm
      have hmem : '-' ∈ (Nat.repr n).data := by rw [hd]; exact List.mem_cons_self _ _
      exact absurd (nat_repr_all_digits n '-' hmem) (by decide)
    | negSucc n =>
      have hd : '-' :: (Nat.repr (m + 1)).data = '-' :: (Nat.repr (n + 1)).data := by
        rw [← int_repr_data_negSucc, ← int_repr_data_negSucc]
        exact congrArg String.data h
      have hr : Nat.repr (m + 1) = Nat.repr (n + 1) :=
        String.ext (List.cons.injEq .. ▸ hd).2
      have hmn := nat_repr_inj _ _ hr
      exact congrArg Int.negSucc (by omega)

theorem sep_inj (l1 : List Char) : ∀ (l2 t1 t2 : List Char),
    '|' ∉ l1 → '|' ∉ l2 → l1 ++ '|' :: t1 = l2 ++ '|' :: t2 → l1 = l2 ∧ t1 = t2 := by
  induction l1 with
  | nil =>
    intro l2 t1 t2 _ h2 h
    cases l2 with
    | nil => simpa using h
    | cons b bs =>
      exfalso
      have hb : '|' = b := (List.cons.injEq .. ▸ h).1
      exact h2 (hb ▸ List.mem_cons_self b bs)
  | cons a as ih =>
    intro l2 t1 t2 h1 h2 h
    cases l2 with
    | nil =>
      exfalso
      have ha : a = '|' := (List.cons.injEq .. ▸ h).1
      exact h1 (ha ▸ List.mem_cons_self a as)
    | cons b bs =>
      have hab : a = b := (List.cons.injEq .. ▸ h).1
      have htl : as ++ '|' :: t1 = bs ++ '|' :: t2 := (List.cons.injEq .. ▸ h).2
      have h1' : '|' ∉ as := fun hx => h1 (List.mem_cons_of_mem a hx)
      have h2' : '|' ∉ bs := fun hx => h2 (List.mem_cons_of_mem b hx)
      rcases ih bs t1 t2 h1' h2' htl with ⟨hl, ht⟩
      exact ⟨by rw [hab, hl], ht⟩

theorem pipe_data : ("|" : String).data = ['|'] := rfl

theorem variantKey_data (id : ℚ) (c s : Option String) :
    (variantKey id c s).data
      = (numStr id).data ++ '|' :: ((c.getD "").data ++ '|' :: (s.getD "").data) := by
  simp [variantKey, String.data_append, pipe_data]

theorem numStr_int (q : ℚ) (h : q.den = 1) : numStr q = Int.repr q.num := if_pos h

theorem numStr_no_pipe (q : ℚ) (h : q.den = 1) : '|' ∉ (numStr q).data := by
  rw [numStr_int q h]
  exact int_repr_no_pipe q.num

theorem numStr_inj (q1 q2 : ℚ) (h1 : q1.den = 1) (h2 : q2.den = 1)
    (h : numStr q1 = numStr q2) : q1 = q2 := by
  rw [numStr_int q1 h1, numStr_int q2 h2] at h
  exact Rat.ext (int_repr_inj _ _ h) (h1.trans h2.symm)

end CartContext

/-- Claim C5, counterexample: the pipe-separated concatenation
collides when a variant value contains the separator: the distinct
triples `(1, "a|b", −)` and `(1, "a", "b|")` get the same key
`"1|a|b|"`. -/
theorem variantKey_collision_cx :
    CartContext.variantKey 1 (some "a|b") none
        = CartContext.variantKey 1 (some "a") (some "b|")
      ∧ (some "a|b" : Option String) ≠ some "a"
      ∧ (none : Option String) ≠ some "b|" :=
  ⟨by decide, by decide, by decide⟩

/-- Claim C5 (amended): on integral product ids and color values free
of the `"|"` separator, two variant keys are equal iff the two identity
triples agree componentwise up to identifying an absent color/size with
the empty string (the code maps `undefined` to `""` before
concatenating, so `(id, none, s)` and `(id, some "", s)` are the same
line); injectivity fails in general when a color value contains `"|"`
or when absence is distinguished from the empty string. -/
theorem variantKey_inj_on_pipe_free (id1 id2 : ℚ) (c1 s1 c2 s2 : Option String)
    (hd1 : id1.den = 1) (hd2 : id2.den = 1)
    (hc1 : '|' ∉ (c1.getD "").data) (hc2 : '|' ∉ (c2.getD "").data) :
    CartContext.variantKey id1 c1 s1 = CartContext.variantKey id2 c2 s2
      ↔ (id1 = id2 ∧ c1.getD "" = c2.getD "" ∧ s1.getD "" = s2.getD "") := by
  constructor
  · intro h
    have hdata := congrArg String.data h
    rw [CartContext.variantKey_data, CartContext.variantKey_data] at hdata
    rcases CartContext.sep_inj _ _ _ _
        (CartContext.numStr_no_pipe id1 hd1) (CartContext.numStr_no_pipe id2 hd2) hdata
      with ⟨hid, htail⟩
    rcases CartContext.sep_inj _ _ _ _ hc1 hc2 htail with ⟨hc, hs⟩
    exact ⟨CartContext.numStr_inj id1 id2 hd1 hd2 (String.ext hid),
      String.ext hc, String.ext hs⟩
  · rintro ⟨hid, hc, hs⟩
    simp only [CartContext.variantKey, hid, hc, hs]

/-- Closed instance of the C5 theorem: keys of two integral-id,
pipe-free variants are equal iff the triples agree. -/
theorem variantKey_inj_on_pipe_free_witness :
    CartContext.variantKey 1 (some "red") (some "M")
        = CartContext.variantKey 2 (some "red") (some "M")
      ↔ ((1 : ℚ) = 2
          ∧ (some "red" : Option String).getD "" = (some "red" : Option String).getD ""
          ∧ (some "M" : Option String).getD "" = (some "M" : Option String).getD "") :=
  variantKey_inj_on_pipe_free 1 2 (some "red") (some "M") (some "red") (some "M")
    (by decide) (by decide) (by decide) (by decide)
